import Mathlib

/-!
Verification of `hack/docs/metrics_gen/main.go`, the Prometheus metrics
documentation generator: a shallow embedding of its data model, value
resolver, declaration scanner, normalizer/classifier and renderer, with
theorems settling the specification claims.
-/

set_option maxHeartbeats 1000000
set_option maxRecDepth 4000

namespace MetricsGen

/-- Go `strings.HasPrefix s pre`: `pre` is a prefix of `s` (modelled on the
character list of the string; the scanned names are ASCII). -/
def goHasPrefix (s pre : String) : Bool := pre.data.isPrefixOf s.data

/-- Go `strings.TrimPrefix s pre`: drops `pre` from the front of `s` when present. -/
def goTrimPrefix (s pre : String) : String :=
  if goHasPrefix s pre then String.mk (s.data.drop pre.data.length) else s

/-- Go `strings.Trim(v, "\"")` and the `strings.TrimFunc` call with `r == '"'`:
removes every leading and trailing double-quote character. -/
def trimQuotes (s : String) : String :=
  String.mk (((s.data.dropWhile (fun c => c == '"')).reverse.dropWhile
    (fun c => c == '"')).reverse)

/-- Go `strings.Join l sep`. -/
def goJoin (sep : String) : List String → String
  | [] => ""
  | [x] => x
  | x :: xs => x ++ sep ++ goJoin sep xs

/-- `lo.Compact` on strings: removes empty (zero-value) entries. -/
def loCompact (l : List String) : List String := l.filter (fun s => s != "")

/-- ASCII upper-casing of one character, as Go `strings.ToUpper` acts on the
ASCII strings this tool handles. -/
def goCharToUpper (c : Char) : Char :=
  if 'a' ≤ c && c ≤ 'z' then Char.ofNat (c.toNat - 32) else c

/-- Go `strings.ToUpper` on ASCII strings. -/
def goToUpper (s : String) : String := String.mk (s.data.map goCharToUpper)

/-- Bytewise (here: characterwise, the strings are ASCII) lexicographic
strict comparison, as Go `<` on strings. -/
def goStrLtChars : List Char → List Char → Bool
  | [], [] => false
  | [], _ :: _ => true
  | _ :: _, [] => false
  | a :: as, b :: bs => if a < b then true else if b < a then false else goStrLtChars as bs

/-- Go `a > b` on strings. -/
def goStrGt (a b : String) : Bool := goStrLtChars b.data a.data

/-- Go `strings.Split(s, "_")` on the character list. -/
def goSplitUnderscoreAux : List Char → List (List Char)
  | [] => [[]]
  | c :: rest =>
    if c = '_' then [] :: goSplitUnderscoreAux rest
    else
      match goSplitUnderscoreAux rest with
      | w :: ws => (c :: w) :: ws
      | [] => [[c]]

/-- Go `strings.Split(s, "_")`. -/
def goSplitUnderscore (s : String) : List String :=
  (goSplitUnderscoreAux s.data).map String.mk

/-- The `metricInfo` struct of `main.go`. The Go field `namespace` is a Lean
keyword, so it is embedded as `nspace`. -/
structure metricInfo where
  nspace : String
  subsystem : String
  name : String
  help : String
deriving DecidableEq, Repr

/-- The `stableMetrics` package variable. -/
def stableMetrics : List String :=
  ["controller_runtime", "aws_sdk_go", "client_go", "leader_election", "interruption",
   "cluster_state", "workqueue", "karpenter_build_info", "karpenter_nodepool_usage",
   "karpenter_nodepool_limit", "karpenter_nodeclaims_terminated_total",
   "karpenter_nodeclaims_created_total", "karpenter_nodes_terminated_total",
   "karpenter_nodes_created_total", "karpenter_pods_startup_duration_seconds",
   "karpenter_scheduler_scheduling_duration_seconds",
   "karpenter_provisioner_scheduling_duration_seconds",
   "karpenter_nodepool_allowed_disruptions",
   "karpenter_voluntary_disruption_decisions_total"]

/-- The `betaMetrics` package variable. -/
def betaMetrics : List String :=
  ["status_condition", "ec2nodeclass", "nodeclaim", "node", "nodepool", "cloudprovider",
   "cloudprovider_batcher", "karpenter_nodeclaims_termination_duration_seconds",
   "karpenter_nodeclaims_instance_termination_duration_seconds",
   "karpenter_nodes_total_pod_requests", "karpenter_nodes_total_pod_limits",
   "karpenter_nodes_total_daemon_requests", "karpenter_nodes_total_daemon_limits",
   "karpenter_nodes_termination_duration_seconds", "karpenter_nodes_system_overhead",
   "karpenter_nodes_allocatable", "karpenter_pods_state",
   "karpenter_scheduler_queue_depth",
   "karpenter_voluntary_disruption_queue_failures_total",
   "karpenter_voluntary_disruption_decision_evaluation_duration_seconds",
   "karpenter_voluntary_disruption_eligible_nodes",
   "karpenter_voluntary_disruption_consolidation_timeouts_total"]

/-- The `deprecatedMetrics` package variable. -/
def deprecatedMetrics : List String :=
  ["operator_status_condition_transitions_total",
   "operator_status_condition_transition_seconds",
   "operator_status_condition_current_status_seconds",
   "operator_status_condition_count", "operator_termination_duration_seconds",
   "operator_termination_current_time_seconds"]

/-- `metricInfo.qualifiedName`: non-empty segments joined with an underscore. -/
def metricInfo.qualifiedName (i : metricInfo) : String :=
  goJoin "_" (loCompact [i.nspace, i.subsystem, i.name])

/-- The deduplication key produced in `main` by
`fmt.Sprintf("%s/%s/%s", m.namespace, m.subsystem, m.name)`. -/
def metricInfo.identKey (m : metricInfo) : String :=
  m.nspace ++ "/" ++ m.subsystem ++ "/" ++ m.name

/-- The identity triple of a record. -/
def metricInfo.identTriple (m : metricInfo) : String × String × String :=
  (m.nspace, m.subsystem, m.name)

/-- `lo.UniqBy` keyed by `identKey`: keeps the first record for each key, in
input order. -/
def uniqByAux : List metricInfo → List String → List metricInfo
  | [], _ => []
  | m :: rest, seen =>
    if m.identKey ∈ seen then uniqByAux rest seen
    else m :: uniqByAux rest (m.identKey :: seen)

/-- The deduplication stage of `main`. -/
def dedupe (ms : List metricInfo) : List metricInfo := uniqByAux ms []

/-- The noise prefixes of the "Drop some metrics" loop in `main`. -/
def noisePrefixes : List String :=
  ["rest_client", "certwatcher_read", "controller_runtime_webhook"]

/-- The `lo.Reject` loop in `main` dropping records whose bare name starts with
a noise prefix. -/
def dropNoise (ms : List metricInfo) : List metricInfo :=
  noisePrefixes.foldl (fun acc p => acc.filter (fun m => !(goHasPrefix m.name p))) ms

/-- The prefix-fold set of the subsystem-less folding loop in `main`. -/
def foldList : List String :=
  ["controller_runtime", "aws_sdk_go", "client_go", "leader_election"]

/-- One iteration of the inner folding loop of `main` for a given fold prefix:
a record with empty subsystem whose name starts with `ss ++ "_"` gets
subsystem `ss` and the prefix stripped from its name. -/
def foldStep (ss : String) (m : metricInfo) : metricInfo :=
  if m.subsystem == "" && goHasPrefix m.name (ss ++ "_") then
    { m with subsystem := ss, name := goTrimPrefix m.name (ss ++ "_") }
  else m

/-- The subsystem-less prefix folding stage of `main`. -/
def foldPrefixes (ms : List metricInfo) : List metricInfo :=
  foldList.foldl (fun acc ss => acc.map (foldStep ss)) ms

/-- The `subSystemSortOrder` map inside `bySubsystem`. -/
def subSystemSortOrder : List (String × Int) :=
  [("", 100), ("nodepool", 10), ("nodepools", 10), ("nodeclaims", 9), ("nodeclaim", 9),
   ("nodes", 8), ("node", 8), ("pods", 7), ("status_condition", -1), ("workqueue", -1),
   ("client_go", -1), ("aws_sdk_go", -1), ("leader_election", -2)]

/-- A Go map read `subSystemSortOrder[s]` with the zero-value default. -/
def sortOrder (s : String) : Int := (subSystemSortOrder.lookup s).getD 0

/-- The comparator returned by `bySubsystem`. -/
def bySubsystemLt (lhs rhs : metricInfo) : Prop :=
  if sortOrder lhs.subsystem ≠ sortOrder rhs.subsystem
  then sortOrder lhs.subsystem > sortOrder rhs.subsystem
  else goStrGt lhs.qualifiedName rhs.qualifiedName = true

instance : DecidableRel bySubsystemLt := fun a b => by
  unfold bySubsystemLt; infer_instance

/-- The non-strict companion of the comparator: `a` need not come strictly
after `b`. `sort.Slice` guarantees a permutation of the input that is sorted
with respect to this relation. -/
def bySubsystemLe (a b : metricInfo) : Prop := ¬ bySubsystemLt b a

instance : DecidableRel bySubsystemLe := fun a b => by
  unfold bySubsystemLe; infer_instance

/-- The `sort.Slice(allMetrics, bySubsystem(allMetrics))` call: a sorted
permutation of the input (modelled with insertion sort, one implementation
satisfying the `sort.Slice` contract). -/
def sortMetrics (ms : List metricInfo) : List metricInfo :=
  ms.insertionSort bySubsystemLe

/-! ## Pattern-based synthetic metrics (`addPatternBasedMetrics`) -/

/-- The `crdKinds` list of `addPatternBasedMetrics`. -/
def crdKinds : List String := ["nodeclaim", "nodepool", "ec2nodeclass", "node"]

/-- The `statusMetrics` block of `addPatternBasedMetrics` for one CRD kind. -/
def statusMetricsFor (kind : String) : List metricInfo :=
  [⟨"operator", kind, "status_condition_transitions_total",
     "The count of transitions of a " ++ kind ++ ", type and status."⟩,
   ⟨"operator", kind, "status_condition_transition_seconds",
     "The amount of time a condition was in a given state before transitioning."⟩,
   ⟨"operator", kind, "status_condition_current_status_seconds",
     "The current amount of time in seconds that a status condition has been in a specific state."⟩,
   ⟨"operator", kind, "status_condition_count",
     "The number of a condition for a " ++ kind ++ ", type and status."⟩]

/-- The `terminationMetrics` block of `addPatternBasedMetrics` for one CRD kind. -/
def terminationMetricsFor (kind : String) : List metricInfo :=
  [⟨"operator", kind, "termination_current_time_seconds",
     "The current amount of time in seconds that a " ++ kind ++ " has been in terminating state."⟩,
   ⟨"operator", kind, "termination_duration_seconds",
     "The amount of time taken by a " ++ kind ++ " to terminate completely."⟩]

/-- The extra node event metric appended when `kind == "node"`. -/
def nodeEventMetrics (kind : String) : List metricInfo :=
  if kind == "node" then
    [⟨"operator", "node", "event_total",
      "The total number of events of a given type and reason for a node"⟩]
  else []

/-- The legacy `status_condition` metrics of `addPatternBasedMetrics`. -/
def legacyStatusMetrics : List metricInfo :=
  [⟨"operator", "status_condition", "transitions_total",
     "The count of transitions of a given object, type and status."⟩,
   ⟨"operator", "status_condition", "transition_seconds",
     "The amount of time a condition was in a given state before transitioning."⟩,
   ⟨"operator", "status_condition", "current_status_seconds",
     "The current amount of time in seconds that a status condition has been in a specific state."⟩,
   ⟨"operator", "status_condition", "count",
     "The number of a condition for a given object, type and status."⟩]

/-- The legacy `termination` metrics of `addPatternBasedMetrics`. -/
def legacyTerminationMetrics : List metricInfo :=
  [⟨"operator", "termination", "duration_seconds",
     "The amount of time taken by an object to terminate completely."⟩,
   ⟨"operator", "termination", "current_time_seconds",
     "The current amount of time in seconds that an object has been in terminating state."⟩]

/-- The client-go metrics appended at the end of `addPatternBasedMetrics`. -/
def clientGoMetrics : List metricInfo :=
  [⟨"", "", "client_go_request_total",
     "Number of HTTP requests, partitioned by status code and method."⟩,
   ⟨"", "", "client_go_request_duration_seconds",
     "Request latency in seconds. Broken down by verb, group, version, kind, and subresource."⟩]

/-- `addPatternBasedMetrics`: appends the synthesized convention-based metrics
to the scanned ones. -/
def addPatternBasedMetrics (allMetrics : List metricInfo) : List metricInfo :=
  (crdKinds.foldl
    (fun acc kind =>
      acc ++ statusMetricsFor kind ++ terminationMetricsFor kind ++ nodeEventMetrics kind)
    allMetrics)
  ++ legacyStatusMetrics ++ legacyTerminationMetrics ++ clientGoMetrics

/-! ## Stability classification and rendering (the loop at the end of `main`) -/

/-- The `switch` on stability lists in `main`: the emitted stability-level word.
`slices.Contains` is modelled by `List.contains`. -/
def stabilityLevel (m : metricInfo) : String :=
  if deprecatedMetrics.contains m.subsystem || deprecatedMetrics.contains m.qualifiedName
  then "DEPRECATED"
  else if stableMetrics.contains m.subsystem || stableMetrics.contains m.qualifiedName
  then "STABLE"
  else if betaMetrics.contains m.subsystem || betaMetrics.contains m.qualifiedName
  then "BETA"
  else "ALPHA"

/-- The `subsystemMap` alias table in the render loop. -/
def subsystemMap : List (String × String) :=
  [("node", "Nodes"), ("nodes", "Nodes"), ("nodeclaim", "Nodeclaims"),
   ("nodeclaims", "Nodeclaims"), ("nodepool", "Nodepools"), ("nodepools", "Nodepools")]

/-- One word of the derived subsystem title: `strings.ToUpper(s)` for the two
acronyms, otherwise `strings.ToUpper(s[0:1]) + s[1:]`. Slicing `s[0:1]` of an
empty word panics in Go (index out of range); the panic is modelled as `none`. -/
def titleWord (s : String) : Option String :=
  if s == "sdk" || s == "aws" then some (goToUpper s)
  else
    match s.data with
    | [] => none
    | c :: rest => some (String.mk (goCharToUpper c :: rest))

/-- The `lo.Map` over the split words: each word passed through `titleWord`
in order, the first panic (empty word) aborting the whole map. -/
def titleWords : List String → Option (List String)
  | [] => some []
  | w :: rest => do
    let t ← titleWord w
    let ts ← titleWords rest
    pure (t :: ts)

/-- The subsystem display title: the alias table first, otherwise the words of
the subsystem (split on underscore) each passed through `titleWord` and joined
with spaces. `none` models the Go panic on an empty word. -/
def subsystemTitle (s : String) : Option String :=
  match subsystemMap.lookup s with
  | some t => some t
  | none => (titleWords (goSplitUnderscore s)).map (goJoin " ")

/-- The per-record body of the render loop: the `###` heading, help line and
stability bullet, emitted only when the qualified name is non-empty. Each list
entry is one `fmt.Fprintf`/`fmt.Fprintln` write. -/
def renderBody (m : metricInfo) : List String :=
  if m.qualifiedName != "" then
    ["### `" ++ m.qualifiedName ++ "`\n",
     m.help ++ "\n",
     "- Stability Level: " ++ stabilityLevel m ++ "\n",
     "\n"]
  else []

/-- One iteration of the render loop: emits the `##` group heading when the
subsystem is non-empty and its title changed, then the record body. Returns
the emitted writes and the new `previousTitle`; `none` models the title panic. -/
def renderOne (previousTitle : String) (m : metricInfo) :
    Option (List String × String) :=
  if m.subsystem != "" then
    match subsystemTitle m.subsystem with
    | none => none
    | some t =>
      if t != previousTitle then
        some (["## " ++ t ++ " Metrics\n", "\n"] ++ renderBody m, t)
      else
        some (renderBody m, previousTitle)
  else
    some (renderBody m, previousTitle)

/-- The render loop over all records, threading `previousTitle`. -/
def renderAll (previousTitle : String) : List metricInfo → Option (List String)
  | [] => some []
  | m :: rest => do
    let (chunks, t) ← renderOne previousTitle m
    let restChunks ← renderAll t rest
    pure (chunks ++ restChunks)

/-- The fixed front matter and preamble written before the render loop
(the three `fmt.Fprintf` calls in `main`). -/
def preamble : String :=
  "---\ntitle: \"Metrics\"\nlinkTitle: \"Metrics\"\nweight: 7\n\ndescription: >\n  Inspect Karpenter Metrics\n---\n"
  ++ "<!-- this document is generated from hack/docs/metrics_gen_docs.go -->\n"
  ++ "Karpenter makes several metrics available in Prometheus format to allow monitoring cluster provisioning status. These metrics are available by default at `karpenter.kube-system.svc.cluster.local:8080/metrics` configurable via the `METRICS_PORT` environment variable documented [here](../settings)\n"

/-- The normalization applied in `main` between scanning and rendering:
pattern synthesis, dedupe, noise drop, prefix folding, sort. -/
def normalize (ms : List metricInfo) : List metricInfo :=
  sortMetrics (foldPrefixes (dropNoise (dedupe (addPatternBasedMetrics ms))))

/-- The byte content of the output document produced from the scanned records,
`none` when the render loop panics on a malformed subsystem. -/
def outputDocument (ms : List metricInfo) : Option String :=
  (renderAll "" (normalize ms)).map (fun chunks => preamble ++ String.join chunks)

/-! ## The Go AST fragment the scanner inspects -/

mutual
/-- The shapes of `ast.Expr` the tool distinguishes. `basicLit` carries the
literal token text (quotes included); `selectorExpr` carries the printed forms
of `X` and `Sel`; `binaryExpr` is treated as concatenation (the operator is
never inspected by the tool); `otherExpr` stands for every remaining shape. -/
inductive GoExpr where
  | basicLit (value : String)
  | ident (nm : String)
  | selectorExpr (x : String) (sel : String)
  | binaryExpr (x : GoExpr) (y : GoExpr)
  | parenExpr (x : GoExpr)
  | starExpr (x : GoExpr)
  | indexExpr (x : GoExpr)
  | funcLit
  | callExpr (fn : GoExpr) (args : List GoExpr)
  | compositeLit (elts : List GoElt)
  | otherExpr (descr : String)
deriving Repr

/-- An element of a composite literal: a `KeyValueExpr` (key printed with
`fmt.Sprintf`) or any other element shape, which the scanner skips. -/
inductive GoElt where
  | keyValue (key : String) (value : GoExpr)
  | plainElt
deriving Repr
end

/-- The fatal errors of the tool (`log.Fatalf` / `log.Fatal` calls), carrying
the data the diagnostic names. -/
inductive FatalErr where
  | unsupportedSelector (selector : String)
  | unresolvedIdentifier (identName : String)
  | unsupportedValue
  | unsupportedFuncExpr
deriving DecidableEq, Repr

/-- The value of the external constant
`sigs.k8s.io/karpenter/pkg/metrics.Namespace` referenced by the symbol table. -/
def metricsNamespace : String := "karpenter"

/-- `getIdentMapping`: the fixed symbol table, an error for any other name. -/
def getIdentMapping (identName : String) : Option String :=
  ([("metrics.Namespace", metricsNamespace), ("Namespace", metricsNamespace),
    ("MetricNamespace", "operator"), ("MetricSubsystem", "status_condition"),
    ("TerminationSubsystem", "termination"), ("WorkQueueSubsystem", "workqueue"),
    ("DepthKey", "depth"), ("AddsKey", "adds_total"),
    ("QueueLatencyKey", "queue_duration_seconds"),
    ("WorkDurationKey", "work_duration_seconds"),
    ("UnfinishedWorkKey", "unfinished_work_seconds"),
    ("LongestRunningProcessorKey", "longest_running_processor_seconds"),
    ("RetriesKey", "retries_total"), ("metrics.PodSubsystem", "pods"),
    ("NodeSubsystem", "nodes"), ("metrics.NodeSubsystem", "nodes"),
    ("machineSubsystem", "machines"), ("NodeClaimSubsystem", "nodeclaims"),
    ("metrics.NodeClaimSubsystem", "nodeclaims"), ("nodePoolSubsystem", "nodepools"),
    ("metrics.NodePoolSubsystem", "nodepools"),
    ("interruptionSubsystem", "interruption"),
    ("deprovisioningSubsystem", "deprovisioning"),
    ("voluntaryDisruptionSubsystem", "voluntary_disruption"),
    ("batcherSubsystem", "cloudprovider_batcher"),
    ("cloudProviderSubsystem", "cloudprovider"), ("stateSubsystem", "cluster_state"),
    ("schedulerSubsystem", "scheduler")] : List (String × String)).lookup identName

/-- One operand switch of `getBinaryExpr`: a quote-trimmed string literal or a
nested binary expression; any other operand shape hits the
`log.Fatalf("unsupported value ...")` default case. -/
def getBinaryOperand : GoExpr → Except FatalErr String
  | .basicLit v => pure (trimQuotes v)
  | .binaryExpr x y => do
    let xs ← getBinaryOperand x
    let ys ← getBinaryOperand y
    pure (xs ++ ys)
  | _ => throw .unsupportedValue

/-- `getBinaryExpr` applied to a binary expression with operands `x` and `y`:
the concatenation of the resolved operands. -/
def getBinaryExpr (x y : GoExpr) : Except FatalErr String := do
  let xs ← getBinaryOperand x
  let ys ← getBinaryOperand y
  pure (xs ++ ys)

/-- The `switch val := kv.Value.(type)` of `handleVariableDeclaration`:
resolves one field value, aborting on a symbol-table miss or an unsupported
shape. -/
def resolveValue : GoExpr → Except FatalErr String
  | .basicLit v => pure v
  | .selectorExpr x sel =>
    let selector := x ++ "." ++ sel
    match getIdentMapping selector with
    | some v => pure v
    | none => throw (.unsupportedSelector selector)
  | .ident nm =>
    match getIdentMapping nm with
    | some v => pure v
    | none => throw (.unresolvedIdentifier nm)
  | .binaryExpr x y => getBinaryExpr x y
  | _ => throw .unsupportedValue

/-- The four field keys the scanner cares about. -/
def relevantKeys : List String := ["Namespace", "Subsystem", "Name", "Help"]

/-- The `keyValuePairs` map restricted to the four relevant keys, with the Go
zero-value default. -/
structure KVPairs where
  nspaceV : String := ""
  subsystemV : String := ""
  nameV : String := ""
  helpV : String := ""
deriving DecidableEq, Repr

/-- Stores a resolved value under its key (Go map assignment). -/
def KVPairs.set (acc : KVPairs) (key v : String) : KVPairs :=
  if key == "Namespace" then { acc with nspaceV := v }
  else if key == "Subsystem" then { acc with subsystemV := v }
  else if key == "Name" then { acc with nameV := v }
  else { acc with helpV := v }

/-- The element loop over one composite literal: skips non-key-value elements
and irrelevant keys, resolves and quote-trims relevant values, aborting on the
first fatal error. -/
def scanElts : List GoElt → KVPairs → Except FatalErr KVPairs
  | [], acc => pure acc
  | .plainElt :: rest, acc => scanElts rest acc
  | .keyValue key v :: rest, acc =>
    if key ∈ relevantKeys then do
      let value ← resolveValue v
      scanElts rest (acc.set key (trimQuotes value))
    else scanElts rest acc

/-- The record built from one composite literal's key/value map. -/
def KVPairs.toMetric (acc : KVPairs) : metricInfo :=
  ⟨acc.nspaceV, acc.subsystemV, acc.nameV, acc.helpV⟩

/-- `getFuncPackage`: the qualifier of the called function, unwrapping
parentheses, pointer dereference and generic instantiation; a function
literal yields the empty qualifier, anything else is fatal. -/
def getFuncPackage : GoExpr → Except FatalErr String
  | .parenExpr x => getFuncPackage x
  | .starExpr x => getFuncPackage x
  | .selectorExpr x _ => pure x
  | .ident nm => pure nm
  | .indexExpr x => getFuncPackage x
  | .funcLit => pure ""
  | _ => throw .unsupportedFuncExpr

/-- The argument loop of `handleVariableDeclaration`: every composite-literal
argument of the call yields one record. -/
def scanArgs : List GoExpr → List metricInfo → Except FatalErr (List metricInfo)
  | [], acc => pure acc
  | .compositeLit elts :: rest, acc => do
    let kvs ← scanElts elts {}
    scanArgs rest (acc ++ [kvs.toMetric])
  | _ :: rest, acc => scanArgs rest acc

/-- The per-initializer-value body of `handleVariableDeclaration`: non-call
values are skipped; a call is accepted only when its function qualifier is
`prometheus` or `opmetrics` and it has arguments. -/
def handleValue (acc : List metricInfo) : GoExpr → Except FatalErr (List metricInfo)
  | .callExpr fn args => do
    let funcPkg ← getFuncPackage fn
    if funcPkg != "prometheus" && funcPkg != "opmetrics" then
      pure acc
    else if args.isEmpty then
      pure acc
    else
      scanArgs args acc
  | _ => pure acc

/-- A `spec` of a `GenDecl`: only `ValueSpec`s are inspected. -/
inductive GoSpec where
  | valueSpec (values : List GoExpr)
  | otherSpec
deriving Repr

/-- `handleVariableDeclaration`: scans every initializer value of every
value spec of one variable declaration. -/
def handleVariableDeclaration (specs : List GoSpec) :
    Except FatalErr (List metricInfo) :=
  go specs []
where
  /-- The spec/value loops. -/
  go : List GoSpec → List metricInfo → Except FatalErr (List metricInfo)
    | [], acc => pure acc
    | .otherSpec :: rest, acc => go rest acc
    | .valueSpec values :: rest, acc => do
      let acc2 ← values.foldlM handleValue acc
      go rest acc2

/-- A top-level declaration: only `var` declarations carry metrics. -/
inductive GoDecl where
  | funcDecl
  | varDecl (specs : List GoSpec)
  | otherGenDecl
deriving Repr

/-- A package: the declaration lists of its files. -/
def GoPackage := List (List GoDecl)

/-- `getMetricsFromPackages`: scans every variable declaration of every file of
every package, aborting on the first fatal error. -/
def getMetricsFromPackages (pkgs : List GoPackage) :
    Except FatalErr (List metricInfo) :=
  pkgs.foldlM
    (fun acc files =>
      files.foldlM
        (fun acc2 decls =>
          decls.foldlM
            (fun acc3 d =>
              match d with
              | .varDecl specs => do
                let ms ← handleVariableDeclaration specs
                pure (acc3 ++ ms)
              | _ => pure acc3)
            acc2)
        acc)
    []

/-- The whole run: scan, then normalize and render. A scanning abort is
`Except.error` and produces no document at all (the output file is only
created after scanning completes); `.ok none` models the renderer panic. -/
def run (pkgs : List GoPackage) : Except FatalErr (Option String) := do
  let ms ← getMetricsFromPackages pkgs
  pure (outputDocument ms)

/-- A value shape whose resolution by `getBinaryExpr` cannot abort: a string
literal or a binary concatenation of two such shapes, to arbitrary depth. -/
inductive LitTree : GoExpr → Prop where
  | lit (v : String) : LitTree (.basicLit v)
  | concat {x y : GoExpr} : LitTree x → LitTree y → LitTree (.binaryExpr x y)

/-- The denotation of a literal/concatenation tree: the quote-trimmed literal
texts concatenated in order. -/
def litVal : GoExpr → String
  | .basicLit v => trimQuotes v
  | .binaryExpr x y => litVal x ++ litVal y
  | _ => ""

/-! ## Helper lemmas -/

/-- The element-wise form of the folding loop: each record passes through the
four fold steps in order. -/
def foldRecord (m : metricInfo) : metricInfo :=
  foldStep "leader_election" (foldStep "client_go"
    (foldStep "aws_sdk_go" (foldStep "controller_runtime" m)))

theorem foldPrefixes_eq_map (ms : List metricInfo) :
    foldPrefixes ms = ms.map foldRecord := by
  simp [foldPrefixes, foldList, List.map_map]
  intro a _
  rfl

/-- Two strings of which neither is a prefix of the other cannot both be
prefixes of the same name. -/
theorem hasPrefix_excl {s p q : String} (hp : goHasPrefix s p = true)
    (hpq : ¬ p.data <+: q.data) (hqp : ¬ q.data <+: p.data) :
    goHasPrefix s q = false := by
  unfold goHasPrefix at *
  rw [List.isPrefixOf_iff_prefix] at hp
  by_contra h
  rw [Bool.not_eq_false, List.isPrefixOf_iff_prefix] at h
  rcases le_total p.data.length q.data.length with hle | hle
  · exact hpq (List.prefix_of_prefix_length_le hp h hle)
  · exact hqp (List.prefix_of_prefix_length_le h hp hle)

/-! ## Claim C1: subsystem-less prefix folding -/

/-- A fold step fires on an eligible record. -/
theorem foldStep_fires (ss : String) (m : metricInfo) (hss : m.subsystem = "")
    (hpre : goHasPrefix m.name (ss ++ "_") = true) :
    foldStep ss m = ⟨m.nspace, ss, goTrimPrefix m.name (ss ++ "_"), m.help⟩ := by
  simp [foldStep, hss, hpre]

/-- A fold step leaves a record without the matching name prefix unchanged. -/
theorem foldStep_noPrefix (ss : String) (m : metricInfo)
    (h : goHasPrefix m.name (ss ++ "_") = false) : foldStep ss m = m := by
  simp [foldStep, h]

/-- A fold step leaves a record with non-empty subsystem unchanged. -/
theorem foldStep_subsystem (ss ns sub nm hp : String) (h : sub ≠ "") :
    foldStep ss ⟨ns, sub, nm, hp⟩ = ⟨ns, sub, nm, hp⟩ := by
  simp [foldStep, h]

/-- C1 (amended): the folding loop acts element-wise, and a record with empty
subsystem whose name starts with `p ++ "_"` for a fold-set prefix `p` gets
exactly that prefix moved into its subsystem and stripped (with the trailing
underscore) from its name, exactly once. -/
theorem claim1_prefix_folding (m : metricInfo) (p : String)
    (hss : m.subsystem = "") (hp : p ∈ foldList)
    (hpre : goHasPrefix m.name (p ++ "_") = true) :
    (∀ ms, foldPrefixes ms = ms.map foldRecord) ∧
    foldRecord m = ⟨m.nspace, p, goTrimPrefix m.name (p ++ "_"), m.help⟩ := by
  refine ⟨foldPrefixes_eq_map, ?_⟩
  simp only [foldList, List.mem_cons, List.not_mem_nil, or_false] at hp
  rcases hp with h | h | h | h <;> subst h <;> simp only [foldRecord]
  · rw [foldStep_fires _ _ hss hpre,
      foldStep_subsystem "aws_sdk_go" m.nspace "controller_runtime" _ _ (by decide),
      foldStep_subsystem "client_go" m.nspace "controller_runtime" _ _ (by decide),
      foldStep_subsystem "leader_election" m.nspace "controller_runtime" _ _ (by decide)]
  · have h1 : goHasPrefix m.name ("controller_runtime" ++ "_") = false :=
      hasPrefix_excl hpre (by decide) (by decide)
    rw [foldStep_noPrefix _ _ h1, foldStep_fires _ _ hss hpre,
      foldStep_subsystem "client_go" m.nspace "aws_sdk_go" _ _ (by decide),
      foldStep_subsystem "leader_election" m.nspace "aws_sdk_go" _ _ (by decide)]
  · have h1 : goHasPrefix m.name ("controller_runtime" ++ "_") = false :=
      hasPrefix_excl hpre (by decide) (by decide)
    have h2 : goHasPrefix m.name ("aws_sdk_go" ++ "_") = false :=
      hasPrefix_excl hpre (by decide) (by decide)
    rw [foldStep_noPrefix _ _ h1, foldStep_noPrefix _ _ h2,
      foldStep_fires _ _ hss hpre,
      foldStep_subsystem "leader_election" m.nspace "client_go" _ _ (by decide)]
  · have h1 : goHasPrefix m.name ("controller_runtime" ++ "_") = false :=
      hasPrefix_excl hpre (by decide) (by decide)
    have h2 : goHasPrefix m.name ("aws_sdk_go" ++ "_") = false :=
      hasPrefix_excl hpre (by decide) (by decide)
    have h3 : goHasPrefix m.name ("client_go" ++ "_") = false :=
      hasPrefix_excl hpre (by decide) (by decide)
    rw [foldStep_noPrefix _ _ h1, foldStep_noPrefix _ _ h2,
      foldStep_noPrefix _ _ h3, foldStep_fires _ _ hss hpre]

/-- C1 witness: the theorem applied to the `client_go_request_total` record. -/
theorem claim1_prefix_folding_witness :
    foldRecord ⟨"", "", "client_go_request_total", "h"⟩
      = ⟨"", "client_go",
          goTrimPrefix "client_go_request_total" ("client_go" ++ "_"), "h"⟩ :=
  (claim1_prefix_folding ⟨"", "", "client_go_request_total", "h"⟩ "client_go"
    rfl (by decide) (by decide)).2

/-- C1 counterexample: `workqueue` is not in the fold set, so a record named
`workqueue_depth` with empty subsystem passes through the folding loop
unchanged and does not become `{subsystem: "workqueue", name: "depth"}`. -/
theorem claim1_workqueue_counterexample :
    foldPrefixes [⟨"", "", "workqueue_depth", "Current depth of workqueue"⟩]
      = [⟨"", "", "workqueue_depth", "Current depth of workqueue"⟩]
    ∧ foldPrefixes [⟨"", "", "workqueue_depth", "Current depth of workqueue"⟩]
      ≠ [⟨"", "workqueue", "depth", "Current depth of workqueue"⟩]
    ∧ "workqueue" ∉ foldList := by decide

/-! ## Claim C2: duplicate identities -/

theorem uniqByAux_key_not_seen :
    ∀ (ms : List metricInfo) (seen : List String) (r : metricInfo),
      r ∈ uniqByAux ms seen → r.identKey ∉ seen
  | [], _, _, hr => by simp [uniqByAux] at hr
  | m :: rest, seen, r, hr => by
    unfold uniqByAux at hr
    split at hr
    · exact uniqByAux_key_not_seen rest seen r hr
    · rcases List.mem_cons.mp hr with h | h
      · subst h; assumption
      · have := uniqByAux_key_not_seen rest (m.identKey :: seen) r h
        exact fun hc => this (List.mem_cons_of_mem _ hc)

theorem uniqByAux_pairwise_key :
    ∀ (ms : List metricInfo) (seen : List String),
      (uniqByAux ms seen).Pairwise (fun a b => a.identKey ≠ b.identKey)
  | [], _ => by simp [uniqByAux]
  | m :: rest, seen => by
    unfold uniqByAux
    split
    · exact uniqByAux_pairwise_key rest seen
    · refine List.pairwise_cons.mpr ⟨fun b hb => ?_, uniqByAux_pairwise_key rest _⟩
      have := uniqByAux_key_not_seen rest (m.identKey :: seen) b hb
      exact fun hc => this (by simp [hc])

/-- C2 (amended): after the deduplication stage all records have pairwise
distinct identity triples; but deduplication runs before prefix folding, so
folding can merge two distinct identities and duplicate identities can
survive to the final output (see the counterexample). -/
theorem claim2_dedupe_distinct_identities (ms : List metricInfo) :
    (dedupe ms).Pairwise (fun a b => a.identTriple ≠ b.identTriple) := by
  have h := uniqByAux_pairwise_key ms []
  refine List.Pairwise.imp ?_ h
  intro a b hk ht
  apply hk
  have h1 : a.nspace = b.nspace := congrArg Prod.fst ht
  have h2 : a.subsystem = b.subsystem := congrArg (fun t => t.2.1) ht
  have h3 : a.name = b.name := congrArg (fun t => t.2.2) ht
  simp [metricInfo.identKey, h1, h2, h3]

/-- C2 counterexample: a scanned record `{subsystem: "client_go", name:
"request_total"}` and the synthesized subsystem-less `client_go_request_total`
record have distinct identities at deduplication time, but prefix folding
afterwards maps the latter onto the former, so the final record list (the one
the renderer walks) contains two records with the same identity triple. -/
theorem claim2_duplicates_counterexample :
    ¬ (normalize [⟨"", "client_go", "request_total", "h1"⟩]).Pairwise
        (fun a b => a.identTriple ≠ b.identTriple)
    ∧ (normalize [⟨"", "client_go", "request_total", "h1"⟩]).countP
        (fun m => m.nspace == "" && m.subsystem == "client_go"
          && m.name == "request_total") = 2 := by decide

/-! ## Claim C3: first-encountered help text -/

theorem uniqByAux_mem_iff :
    ∀ (ms : List metricInfo) (seen : List String) (r : metricInfo),
      r ∈ uniqByAux ms seen ↔
        (r.identKey ∉ seen
          ∧ ms.find? (fun x => x.identKey == r.identKey) = some r)
  | [], seen, r => by simp [uniqByAux]
  | m :: rest, seen, r => by
    unfold uniqByAux
    by_cases hkey : m.identKey = r.identKey
    · by_cases hm : m.identKey ∈ seen
      · rw [if_pos hm]
        rw [uniqByAux_mem_iff rest seen r]
        have : r.identKey ∈ seen := hkey ▸ hm
        simp [this]
      · rw [if_neg hm]
        constructor
        · intro hr
          rcases List.mem_cons.mp hr with h | h
          · subst h
            exact ⟨hm, List.find?_cons_of_pos _ (by simp [hkey])⟩
          · have hns := uniqByAux_key_not_seen rest (m.identKey :: seen) r h
            exact absurd (by simp [hkey]) hns
        · rintro ⟨hs, hf⟩
          rw [List.find?_cons_of_pos _ (by simp [hkey])] at hf
          exact (Option.some.injEq _ _ ▸ hf : m = r) ▸ List.mem_cons_self m _
    · have hfind : (m :: rest).find? (fun x => x.identKey == r.identKey)
          = rest.find? (fun x => x.identKey == r.identKey) :=
        List.find?_cons_of_neg _ (by simp [hkey])
      by_cases hm : m.identKey ∈ seen
      · rw [if_pos hm, hfind]
        exact uniqByAux_mem_iff rest seen r
      · rw [if_neg hm, hfind]
        constructor
        · intro hr
          rcases List.mem_cons.mp hr with h | h
          · exact absurd rfl (h ▸ hkey)
          · have := (uniqByAux_mem_iff rest (m.identKey :: seen) r).mp h
            exact ⟨fun hc => this.1 (List.mem_cons_of_mem _ hc), this.2⟩
        · rintro ⟨hs, hf⟩
          refine List.mem_cons_of_mem _ ?_
          rw [uniqByAux_mem_iff rest (m.identKey :: seen) r]
          refine ⟨?_, hf⟩
          intro hc
          rcases List.mem_cons.mp hc with h | h
          · exact hkey h.symm
          · exact hs h

/-- C3 (amended): deduplication keeps, for each identity key, exactly the
first-encountered record (with its help text); this is keyed on the identity
triple, not on the qualified name, so only true duplicates by identity are
collapsed. Concretely, for two records with the same identity and different
help text only the first help line is rendered. -/
theorem claim3_first_help_wins :
    (∀ (ms : List metricInfo) (r : metricInfo),
      r ∈ dedupe ms ↔ ms.find? (fun x => x.identKey == r.identKey) = some r)
    ∧ ("HELP-ONE\n" ∈ (renderAll "" (normalize
        [⟨"karpenter", "", "foo_bar", "HELP-ONE"⟩,
         ⟨"karpenter", "", "foo_bar", "HELP-TWO"⟩])).getD []
      ∧ "HELP-TWO\n" ∉ (renderAll "" (normalize
        [⟨"karpenter", "", "foo_bar", "HELP-ONE"⟩,
         ⟨"karpenter", "", "foo_bar", "HELP-TWO"⟩])).getD []) := by
  constructor
  · intro ms r
    rw [dedupe, uniqByAux_mem_iff ms [] r]
    simp
  · exact (by decide)

/-- C3 counterexample: two records with the same qualified name
`karpenter_foo_bar` but different identity triples (namespace `karpenter`
versus subsystem `karpenter`) are not deduplicated, and both help texts
appear in the rendered document, refuting the claim read at qualified-name
granularity. -/
theorem claim3_qualified_name_counterexample :
    metricInfo.qualifiedName ⟨"karpenter", "", "foo_bar", "HELP-ONE"⟩
      = metricInfo.qualifiedName ⟨"", "karpenter", "foo_bar", "HELP-TWO"⟩
    ∧ ("HELP-ONE\n" ∈ (renderAll "" (normalize
        [⟨"karpenter", "", "foo_bar", "HELP-ONE"⟩,
         ⟨"", "karpenter", "foo_bar", "HELP-TWO"⟩])).getD []
      ∧ "HELP-TWO\n" ∈ (renderAll "" (normalize
        [⟨"karpenter", "", "foo_bar", "HELP-ONE"⟩,
         ⟨"", "karpenter", "foo_bar", "HELP-TWO"⟩])).getD []) := by decide

/-! ## Order-theoretic properties of the sort comparator -/

/-- `List.Lex` on characters is the `<` of the linear order on `List Char`. -/
theorem lex_iff_lt (l1 l2 : List Char) : List.Lex (· < ·) l1 l2 ↔ l1 < l2 :=
  Iff.rfl

theorem goStrLtChars_iff :
    ∀ (l1 l2 : List Char), goStrLtChars l1 l2 = true ↔ List.Lex (· < ·) l1 l2
  | [], [] => by
    unfold goStrLtChars
    constructor
    · intro h; cases h
    · intro h; cases h
  | [], _ :: _ => by
    unfold goStrLtChars
    constructor
    · intro _; exact List.Lex.nil
    · intro _; rfl
  | _ :: _, [] => by
    unfold goStrLtChars
    constructor
    · intro h; cases h
    · intro h; cases h
  | a :: as, b :: bs => by
    unfold goStrLtChars
    by_cases hab : a < b
    · simp only [hab, if_true, true_iff]
      exact List.Lex.rel hab
    · by_cases hba : b < a
      · simp only [hab, hba, if_false, if_true]
        constructor
        · intro h; cases h
        · intro h
          cases h with
          | rel h' => exact absurd h' hab
          | cons h' => exact absurd hba (lt_irrefl a)
      · have heq : a = b := le_antisymm (not_lt.mp hba) (not_lt.mp hab)
        subst heq
        simp only [lt_irrefl, if_false]
        rw [goStrLtChars_iff as bs]
        constructor
        · exact List.Lex.cons
        · intro h
          cases h with
          | rel h' => exact absurd h' (lt_irrefl a)
          | cons h' => exact h'

/-- The comparator is the strict lexicographic order on the composite key
(descending subsystem priority, then descending qualified name). -/
theorem bySubsystemLt_iff (a b : metricInfo) :
    bySubsystemLt a b ↔
      (sortOrder b.subsystem < sortOrder a.subsystem
        ∨ (sortOrder a.subsystem = sortOrder b.subsystem
            ∧ List.Lex (· < ·) b.qualifiedName.data a.qualifiedName.data)) := by
  unfold bySubsystemLt
  by_cases h : sortOrder a.subsystem = sortOrder b.subsystem
  · rw [if_neg (by simp [h])]
    rw [show (goStrGt a.qualifiedName b.qualifiedName = true) =
        (goStrLtChars b.qualifiedName.data a.qualifiedName.data = true) from rfl]
    rw [goStrLtChars_iff]
    simp [h]
  · rw [if_pos h]
    simp only [gt_iff_lt]
    constructor
    · exact fun hlt => Or.inl hlt
    · rintro (hlt | ⟨heq, _⟩)
      · exact hlt
      · exact absurd heq h

theorem bySubsystemLe_iff (a b : metricInfo) :
    bySubsystemLe a b ↔
      (sortOrder b.subsystem ≤ sortOrder a.subsystem
        ∧ (sortOrder b.subsystem = sortOrder a.subsystem →
            b.qualifiedName.data ≤ a.qualifiedName.data)) := by
  unfold bySubsystemLe
  rw [bySubsystemLt_iff]
  simp only [lex_iff_lt]
  push_neg
  rfl

theorem bySubsystemLe_total : ∀ a b : metricInfo,
    bySubsystemLe a b ∨ bySubsystemLe b a := by
  intro a b
  rw [bySubsystemLe_iff, bySubsystemLe_iff]
  rcases lt_trichotomy (sortOrder a.subsystem) (sortOrder b.subsystem) with h | h | h
  · exact Or.inr ⟨le_of_lt h, fun he => absurd he (ne_of_lt h)⟩
  · rcases le_total a.qualifiedName.data b.qualifiedName.data with hq | hq
    · exact Or.inr ⟨le_of_eq h, fun _ => hq⟩
    · exact Or.inl ⟨le_of_eq h.symm, fun _ => hq⟩
  · exact Or.inl ⟨le_of_lt h, fun he => absurd he (ne_of_lt h)⟩

instance : IsTotal metricInfo bySubsystemLe := ⟨bySubsystemLe_total⟩

instance : IsTrans metricInfo bySubsystemLe := by
  constructor
  intro a b c hab hbc
  rw [bySubsystemLe_iff] at hab hbc ⊢
  refine ⟨le_trans hbc.1 hab.1, fun he => ?_⟩
  have hba : sortOrder b.subsystem = sortOrder a.subsystem :=
    le_antisymm hab.1 (he ▸ hbc.1)
  have hcb : sortOrder c.subsystem = sortOrder b.subsystem := he.trans hba.symm
  exact le_trans (hbc.2 hcb) (hab.2 hba)

/-- The composite sort key of a record. -/
def sortKey (m : metricInfo) : Int × List Char :=
  (sortOrder m.subsystem, m.qualifiedName.data)

theorem bySubsystemLe_antisymm_key {a b : metricInfo}
    (h1 : bySubsystemLe a b) (h2 : bySubsystemLe b a) : sortKey a = sortKey b := by
  rw [bySubsystemLe_iff] at h1 h2
  have hp : sortOrder a.subsystem = sortOrder b.subsystem :=
    le_antisymm h2.1 h1.1
  have hq : a.qualifiedName.data = b.qualifiedName.data :=
    le_antisymm (h2.2 hp) (h1.2 hp.symm)
  unfold sortKey
  rw [hp, hq]

/-- An unlisted subsystem gets the Go zero-value priority 0. -/
theorem sortOrder_unlisted (s : String)
    (hs : s ∉ subSystemSortOrder.map Prod.fst) : sortOrder s = 0 := by
  simp only [subSystemSortOrder, List.map_cons, List.map_nil, List.mem_cons,
    List.not_mem_nil, or_false, not_or] at hs
  obtain ⟨h1, h2, h3, h4, h5, h6, h7, h8, h9, h10, h11, h12, h13⟩ := hs
  have e1 : (s == "") = false := by simp [h1]
  have e2 : (s == "nodepool") = false := by simp [h2]
  have e3 : (s == "nodepools") = false := by simp [h3]
  have e4 : (s == "nodeclaims") = false := by simp [h4]
  have e5 : (s == "nodeclaim") = false := by simp [h5]
  have e6 : (s == "nodes") = false := by simp [h6]
  have e7 : (s == "node") = false := by simp [h7]
  have e8 : (s == "pods") = false := by simp [h8]
  have e9 : (s == "status_condition") = false := by simp [h9]
  have e10 : (s == "workqueue") = false := by simp [h10]
  have e11 : (s == "client_go") = false := by simp [h11]
  have e12 : (s == "aws_sdk_go") = false := by simp [h12]
  have e13 : (s == "leader_election") = false := by simp [h13]
  simp [sortOrder, subSystemSortOrder, List.lookup, e1, e2, e3, e4, e5, e6,
    e7, e8, e9, e10, e11, e12, e13]

/-- Every named subsystem has strictly lower priority than the empty one. -/
theorem sortOrder_lt_empty (s : String) (hs : s ≠ "") :
    sortOrder s < sortOrder "" := by
  by_cases h2 : s = "nodepool"
  · subst h2; decide
  by_cases h3 : s = "nodepools"
  · subst h3; decide
  by_cases h4 : s = "nodeclaims"
  · subst h4; decide
  by_cases h5 : s = "nodeclaim"
  · subst h5; decide
  by_cases h6 : s = "nodes"
  · subst h6; decide
  by_cases h7 : s = "node"
  · subst h7; decide
  by_cases h8 : s = "pods"
  · subst h8; decide
  by_cases h9 : s = "status_condition"
  · subst h9; decide
  by_cases h10 : s = "workqueue"
  · subst h10; decide
  by_cases h11 : s = "client_go"
  · subst h11; decide
  by_cases h12 : s = "aws_sdk_go"
  · subst h12; decide
  by_cases h13 : s = "leader_election"
  · subst h13; decide
  have hu : s ∉ subSystemSortOrder.map Prod.fst := by
    simp only [subSystemSortOrder, List.map_cons, List.map_nil, List.mem_cons,
      List.not_mem_nil, or_false, not_or]
    exact ⟨hs, h2, h3, h4, h5, h6, h7, h8, h9, h10, h11, h12, h13⟩
  rw [sortOrder_unlisted s hu]
  decide

/-! ## Claim C8: the renderer sort order -/

/-- C8: the sort stage emits a permutation of the records ordered by the
comparator; the comparator is exactly the composite key — primary key
descending subsystem priority, secondary key descending lexicographic
qualified name; unlisted subsystems default to priority 0; and the empty
subsystem has strictly higher priority than every named subsystem. -/
theorem claim8_renderer_sort (ms : List metricInfo) :
    ((sortMetrics ms).Sorted bySubsystemLe ∧ (sortMetrics ms).Perm ms)
    ∧ (∀ a b : metricInfo, bySubsystemLt a b ↔
        (sortOrder b.subsystem < sortOrder a.subsystem
          ∨ (sortOrder a.subsystem = sortOrder b.subsystem
              ∧ List.Lex (· < ·) b.qualifiedName.data a.qualifiedName.data)))
    ∧ (∀ s : String, s ∉ subSystemSortOrder.map Prod.fst → sortOrder s = 0)
    ∧ (∀ s : String, s ≠ "" → sortOrder s < sortOrder "") := by
  exact ⟨⟨List.sorted_insertionSort _ _, List.perm_insertionSort _ _⟩,
    bySubsystemLt_iff, sortOrder_unlisted, sortOrder_lt_empty⟩

/-- C8 witness: an unlisted subsystem gets priority 0, and a named subsystem
sorts strictly below the empty subsystem. -/
theorem claim8_renderer_sort_witness :
    sortOrder "scheduler" = 0 ∧ sortOrder "nodes" < sortOrder "" :=
  ⟨(claim8_renderer_sort []).2.2.1 "scheduler" (by decide),
   (claim8_renderer_sort []).2.2.2 "nodes" (by decide)⟩

/-! ## Claim C7: determinism across runs -/

/-- When all keys are fresh and pairwise distinct, deduplication is the
identity. -/
theorem uniqByAux_eq_self :
    ∀ (ms : List metricInfo) (seen : List String),
      (∀ m ∈ ms, m.identKey ∉ seen) →
      ms.Pairwise (fun a b => a.identKey ≠ b.identKey) →
      uniqByAux ms seen = ms
  | [], _, _, _ => rfl
  | m :: rest, seen, hseen, hpw => by
    unfold uniqByAux
    rw [if_neg (hseen m (List.mem_cons_self m rest))]
    congr 1
    refine uniqByAux_eq_self rest (m.identKey :: seen) ?_
      (List.pairwise_cons.mp hpw).2
    intro x hx hc
    rcases List.mem_cons.mp hc with h | h
    · exact (List.pairwise_cons.mp hpw).1 x hx h.symm
    · exact hseen x (List.mem_cons_of_mem _ hx) h

/-- The fixed catalog appended by the pattern synthesizer. -/
def patternCatalog : List metricInfo := addPatternBasedMetrics []

theorem addPattern_eq_append (ms : List metricInfo) :
    addPatternBasedMetrics ms = ms ++ patternCatalog := by
  simp [addPatternBasedMetrics, patternCatalog, crdKinds, List.append_assoc]

/-- The noise-drop stage as a composition of filters. -/
theorem dropNoise_eq (ms : List metricInfo) :
    dropNoise ms =
      ((ms.filter (fun m => !(goHasPrefix m.name "rest_client"))).filter
        (fun m => !(goHasPrefix m.name "certwatcher_read"))).filter
        (fun m => !(goHasPrefix m.name "controller_runtime_webhook")) := rfl

/-- Two sorted permutations of each other with pairwise-distinct sort keys are
equal: the sort output is determined once no two records tie. -/
theorem sorted_perm_eq :
    ∀ (l1 l2 : List metricInfo), l1.Perm l2 →
      l1.Sorted bySubsystemLe → l2.Sorted bySubsystemLe →
      l1.Pairwise (fun a b => sortKey a ≠ sortKey b) → l1 = l2
  | [], l2, hp, _, _, _ => hp.nil_eq
  | a :: t1, [], hp, _, _, _ => absurd hp.symm.nil_eq (by simp)
  | a :: t1, b :: t2, hp, hs1, hs2, hpw => by
    have hab : a = b := by
      by_contra hne
      have ha2 : a ∈ b :: t2 := hp.mem_iff.mp (List.mem_cons_self a t1)
      have ha2' : a ∈ t2 := by
        rcases List.mem_cons.mp ha2 with h | h
        · exact absurd h hne
        · exact h
      have hb1 : b ∈ a :: t1 := hp.symm.mem_iff.mp (List.mem_cons_self b t2)
      have hb1' : b ∈ t1 := by
        rcases List.mem_cons.mp hb1 with h | h
        · exact absurd h.symm hne
        · exact h
      have hle1 : bySubsystemLe a b := (List.pairwise_cons.mp hs1).1 b hb1'
      have hle2 : bySubsystemLe b a := (List.pairwise_cons.mp hs2).1 a ha2'
      exact (List.pairwise_cons.mp hpw).1 b hb1'
        (bySubsystemLe_antisymm_key hle1 hle2)
    subst hab
    have ht := sorted_perm_eq t1 t2 hp.cons_inv
      (List.pairwise_cons.mp hs1).2 (List.pairwise_cons.mp hs2).2
      (List.pairwise_cons.mp hpw).2
    rw [ht]

/-- The record list entering the sort stage. -/
def preSort (ms : List metricInfo) : List metricInfo :=
  foldPrefixes (dropNoise (dedupe (addPatternBasedMetrics ms)))

/-- C7 (amended): the output bytes are a function of the scanned record
sequence only up to order — two runs whose traversals scan the same records
in any order emit identical bytes provided no two records share an identity
key (so first-wins deduplication has nothing to choose) and no two surviving
records share a sort key (so the unstable sort has no ties). Without those
provisos the output can differ between runs (see the counterexample). -/
theorem claim7_order_determinism (ms1 ms2 : List metricInfo)
    (hperm : ms1.Perm ms2)
    (hkeys : (addPatternBasedMetrics ms1).Pairwise
      (fun a b => a.identKey ≠ b.identKey))
    (hsort : (preSort ms1).Pairwise (fun a b => sortKey a ≠ sortKey b)) :
    outputDocument ms1 = outputDocument ms2 := by
  have hpa : (addPatternBasedMetrics ms1).Perm (addPatternBasedMetrics ms2) := by
    rw [addPattern_eq_append, addPattern_eq_append]
    exact hperm.append_right patternCatalog
  have hkeys2 : (addPatternBasedMetrics ms2).Pairwise
      (fun a b => a.identKey ≠ b.identKey) :=
    (hpa.pairwise_iff (fun h => Ne.symm h)).mp hkeys
  have hd1 : dedupe (addPatternBasedMetrics ms1) = addPatternBasedMetrics ms1 :=
    uniqByAux_eq_self _ [] (by simp) hkeys
  have hd2 : dedupe (addPatternBasedMetrics ms2) = addPatternBasedMetrics ms2 :=
    uniqByAux_eq_self _ [] (by simp) hkeys2
  have hps : (preSort ms1).Perm (preSort ms2) := by
    unfold preSort
    rw [hd1, hd2, dropNoise_eq, dropNoise_eq, foldPrefixes_eq_map,
      foldPrefixes_eq_map]
    exact (((hpa.filter _).filter _).filter _).map foldRecord
  have hsort2 : (preSort ms2).Pairwise (fun a b => sortKey a ≠ sortKey b) :=
    (hps.pairwise_iff (fun h => Ne.symm h)).mp hsort
  have hnorm : normalize ms1 = normalize ms2 := by
    show sortMetrics (preSort ms1) = sortMetrics (preSort ms2)
    refine sorted_perm_eq _ _ ?_ (List.sorted_insertionSort _ _)
      (List.sorted_insertionSort _ _) ?_
    · exact ((List.perm_insertionSort _ _).trans hps).trans
        (List.perm_insertionSort _ _).symm
    · exact ((List.perm_insertionSort bySubsystemLe (preSort ms1)).pairwise_iff
        (fun h => Ne.symm h)).mpr hsort
  unfold outputDocument
  rw [hnorm]

/-- C7 witness: two runs scanning the same two fresh records in opposite
order emit the same bytes. -/
theorem claim7_order_determinism_witness :
    outputDocument [⟨"karpenter", "pods", "aaa_total", "h1"⟩,
        ⟨"karpenter", "pods", "bbb_total", "h2"⟩]
      = outputDocument [⟨"karpenter", "pods", "bbb_total", "h2"⟩,
        ⟨"karpenter", "pods", "aaa_total", "h1"⟩] :=
  claim7_order_determinism _ _
    (List.Perm.swap _ _ _) (by decide) (by decide)

/-- C7 counterexample: with two scanned records sharing one identity, the two
traversal orders keep different help texts and the two runs emit different
byte sequences, refuting run-to-run byte equality (Go's package and file maps
are iterated in unspecified order, so both orders are real runs). -/
theorem claim7_counterexample :
    outputDocument [⟨"karpenter", "", "zfoo", "A-HELP"⟩,
        ⟨"karpenter", "", "zfoo", "B-HELP"⟩]
      ≠ outputDocument [⟨"karpenter", "", "zfoo", "B-HELP"⟩,
        ⟨"karpenter", "", "zfoo", "A-HELP"⟩] := by decide

/-! ## Claim C4: stability classification -/

/-- C4: every record classifies into exactly one of the four tiers; a record
whose subsystem or qualified name is deprecated-listed is always DEPRECATED
(never STABLE or BETA); stable beats beta; a record matching no list is
ALPHA. Each tier matches against the subsystem and the full qualified name. -/
theorem claim4_stability_classification (m : metricInfo) :
    stabilityLevel m ∈ ["ALPHA", "BETA", "STABLE", "DEPRECATED"]
    ∧ ((deprecatedMetrics.contains m.subsystem
          || deprecatedMetrics.contains m.qualifiedName) = true →
        stabilityLevel m = "DEPRECATED"
          ∧ stabilityLevel m ≠ "STABLE" ∧ stabilityLevel m ≠ "BETA")
    ∧ ((deprecatedMetrics.contains m.subsystem
          || deprecatedMetrics.contains m.qualifiedName) = false →
        (stableMetrics.contains m.subsystem
          || stableMetrics.contains m.qualifiedName) = true →
        stabilityLevel m = "STABLE")
    ∧ ((deprecatedMetrics.contains m.subsystem
          || deprecatedMetrics.contains m.qualifiedName) = false →
        (stableMetrics.contains m.subsystem
          || stableMetrics.contains m.qualifiedName) = false →
        (betaMetrics.contains m.subsystem
          || betaMetrics.contains m.qualifiedName) = true →
        stabilityLevel m = "BETA")
    ∧ ((deprecatedMetrics.contains m.subsystem
          || deprecatedMetrics.contains m.qualifiedName) = false →
        (stableMetrics.contains m.subsystem
          || stableMetrics.contains m.qualifiedName) = false →
        (betaMetrics.contains m.subsystem
          || betaMetrics.contains m.qualifiedName) = false →
        stabilityLevel m = "ALPHA") := by
  refine ⟨?_, fun h => ?_, fun h1 h2 => ?_, fun h1 h2 h3 => ?_, fun h1 h2 h3 => ?_⟩
  · unfold stabilityLevel
    split
    · simp
    · split
      · simp
      · split <;> simp
  · unfold stabilityLevel
    rw [if_pos h]
    exact ⟨rfl, by decide, by decide⟩
  · unfold stabilityLevel
    rw [if_neg (by rw [h1]; simp), if_pos h2]
  · unfold stabilityLevel
    rw [if_neg (by rw [h1]; simp), if_neg (by rw [h2]; simp), if_pos h3]
  · unfold stabilityLevel
    rw [if_neg (by rw [h1]; simp), if_neg (by rw [h2]; simp), if_neg (by rw [h3]; simp)]

/-- C4 witness: a deprecated-listed qualified name classifies DEPRECATED, a
record matching no list classifies ALPHA. -/
theorem claim4_stability_witness :
    stabilityLevel ⟨"operator", "status_condition", "count", "help"⟩ = "DEPRECATED"
    ∧ stabilityLevel ⟨"karpenter", "ipam", "my_metric", "help"⟩ = "ALPHA" :=
  ⟨((claim4_stability_classification
      ⟨"operator", "status_condition", "count", "help"⟩).2.1 (by decide)).1,
    (claim4_stability_classification
      ⟨"karpenter", "ipam", "my_metric", "help"⟩).2.2.2.2
      (by decide) (by decide) (by decide)⟩

/-! ## Claim C5: concatenation resolution -/

theorem getBinaryOperand_litTree {e : GoExpr} (h : LitTree e) :
    getBinaryOperand e = .ok (litVal e) := by
  induction h with
  | lit v => rfl
  | concat hx hy ihx ihy =>
    unfold getBinaryOperand
    rw [ihx]
    show (Except.ok (litVal _)).bind _ = _
    rw [Except.bind]
    rw [ihy]
    rfl

/-- C5 (amended): a binary concatenation of two resolvable sub-values — where
a resolvable sub-value is a string literal or itself such a concatenation —
resolves without aborting to the concatenation of the sub-values' quote-
trimmed resolved forms, recursively to arbitrary depth. (Identifiers are not
resolvable inside concatenations: see the counterexample.) -/
theorem claim5_concatenation_resolution (x y : GoExpr)
    (hx : LitTree x) (hy : LitTree y) :
    resolveValue (.binaryExpr x y) = .ok (litVal x ++ litVal y)
    ∧ getBinaryExpr x y = .ok (litVal x ++ litVal y) := by
  have hb : getBinaryExpr x y = .ok (litVal x ++ litVal y) := by
    unfold getBinaryExpr
    rw [getBinaryOperand_litTree hx]
    show (Except.ok (litVal _)).bind _ = _
    rw [Except.bind]
    rw [getBinaryOperand_litTree hy]
    rfl
  exact ⟨hb, hb⟩

/-- C5 witness: `("a" + "b") + "c"` resolves to `"abc"`. -/
theorem claim5_concatenation_witness :
    resolveValue (.binaryExpr
      (.binaryExpr (.basicLit "\"a\"") (.basicLit "\"b\"")) (.basicLit "\"c\""))
      = .ok "abc" :=
  (claim5_concatenation_resolution _ _
    (LitTree.concat (LitTree.lit _) (LitTree.lit _)) (LitTree.lit _)).1.trans rfl

/-- C5 counterexample: an identifier that IS mapped in the symbol table still
aborts the run when it occurs as an operand of a concatenation, because
`getBinaryExpr` only handles literals and nested concatenations. -/
theorem claim5_identifier_counterexample :
    getIdentMapping "NodeSubsystem" = some "nodes"
    ∧ resolveValue (.ident "NodeSubsystem") = .ok "nodes"
    ∧ resolveValue (.binaryExpr (.ident "NodeSubsystem") (.basicLit "\"_total\""))
        = .error .unsupportedValue := ⟨rfl, rfl, rfl⟩

/-! ## Claim C6: unresolved symbols abort the run before any output -/

/-- Unfolding: scanning a relevant key/value element resolves it first. -/
theorem scanElts_cons_kv_pos (key : String) (v : GoExpr) (rest : List GoElt)
    (acc : KVPairs) (hk : key ∈ relevantKeys) :
    scanElts (.keyValue key v :: rest) acc
      = (resolveValue v).bind
          (fun vv => scanElts rest (acc.set key (trimQuotes vv))) := by
  conv_lhs => rw [scanElts]
  rw [if_pos hk]
  rfl

/-- Unfolding: an irrelevant key is skipped before its value is inspected. -/
theorem scanElts_cons_kv_neg (key : String) (v : GoExpr) (rest : List GoElt)
    (acc : KVPairs) (hk : key ∉ relevantKeys) :
    scanElts (.keyValue key v :: rest) acc = scanElts rest acc := by
  conv_lhs => rw [scanElts]
  rw [if_neg hk]

/-- Scanning a composite literal decomposes over element-list concatenation. -/
theorem scanElts_append :
    ∀ (l1 l2 : List GoElt) (acc : KVPairs),
      scanElts (l1 ++ l2) acc = (scanElts l1 acc).bind (fun a => scanElts l2 a)
  | [], l2, acc => rfl
  | .plainElt :: rest, l2, acc => scanElts_append rest l2 acc
  | .keyValue key v :: rest, l2, acc => by
    simp only [List.cons_append]
    by_cases hk : key ∈ relevantKeys
    · rw [scanElts_cons_kv_pos _ _ _ _ hk, scanElts_cons_kv_pos _ _ _ _ hk]
      cases hres : resolveValue v with
      | error e => rfl
      | ok vv =>
        show scanElts (rest ++ l2) _ = (scanElts rest _).bind _
        exact scanElts_append rest l2 _
    · rw [scanElts_cons_kv_neg _ _ _ _ hk, scanElts_cons_kv_neg _ _ _ _ hk]
      exact scanElts_append rest l2 acc

/-- C6: a scanned field value (under one of the four relevant keys) that
references an identifier absent from the symbol table makes value resolution
fail with an error naming that identifier; the element scan, reached after
the preceding elements resolved, aborts with that same error; any scanning
error makes the whole run abort before a document is produced (in `main` the
output file is only created after all scanning); and a concrete package with
such a reference makes the full run abort with the identifier's name. -/
theorem claim6_unresolved_symbol_aborts
    (n : String) (hn : getIdentMapping n = none)
    (key : String) (hkey : key ∈ relevantKeys)
    (pre post : List GoElt) (acc acc2 : KVPairs)
    (hpre : scanElts pre acc = .ok acc2) :
    resolveValue (.ident n) = .error (.unresolvedIdentifier n)
    ∧ scanElts (pre ++ .keyValue key (.ident n) :: post) acc
        = .error (.unresolvedIdentifier n)
    ∧ (∀ (pkgs : List GoPackage) (e : FatalErr),
        getMetricsFromPackages pkgs = .error e → run pkgs = .error e)
    ∧ run [[[GoDecl.varDecl [.valueSpec [.callExpr
        (.selectorExpr "prometheus" "NewCounterVec")
        [.compositeLit [.keyValue "Name" (.ident "doesNotExist")]]]]]]]
      = .error (.unresolvedIdentifier "doesNotExist") := by
  have hres : resolveValue (.ident n) = .error (.unresolvedIdentifier n) := by
    show (match getIdentMapping n with
      | some v => pure v
      | none => throw (FatalErr.unresolvedIdentifier n) : Except FatalErr String) = _
    rw [hn]
    rfl
  refine ⟨hres, ?_, ?_, rfl⟩
  · rw [scanElts_append, hpre]
    show scanElts (_ :: post) acc2 = _
    unfold scanElts
    rw [if_pos hkey, hres]
    rfl
  · intro pkgs e h
    simp [run, h, Except.bind]

/-- C6 witness: the abort at a concrete unmapped identifier under the `Name`
key. -/
theorem claim6_unresolved_symbol_witness :
    scanElts [GoElt.keyValue "Name" (.ident "doesNotExist")] {}
      = .error (.unresolvedIdentifier "doesNotExist") :=
  (claim6_unresolved_symbol_aborts "doesNotExist" rfl "Name" (by decide)
    [] [] {} {} rfl).2.1

/-! ## Claim C9: all-empty records never render -/

/-- A composite literal whose elements are all irrelevant (no key/value pairs
under the four keys) leaves the key/value map untouched. -/
theorem scanElts_irrelevant :
    ∀ (elts : List GoElt) (acc : KVPairs),
      (∀ k v, GoElt.keyValue k v ∈ elts → k ∉ relevantKeys) →
      scanElts elts acc = .ok acc
  | [], _, _ => rfl
  | .plainElt :: rest, acc, h =>
    scanElts_irrelevant rest acc (fun k v hm => h k v (List.mem_cons_of_mem _ hm))
  | .keyValue key v :: rest, acc, h => by
    rw [scanElts_cons_kv_neg _ _ _ _ (h key v (List.mem_cons_self _ _))]
    exact scanElts_irrelevant rest acc
      (fun k v hm => h k v (List.mem_cons_of_mem _ hm))

/-- Unfolding: a composite-literal argument is scanned and yields a record. -/
theorem scanArgs_cons_composite (elts : List GoElt) (rest : List GoExpr)
    (acc : List metricInfo) :
    scanArgs (.compositeLit elts :: rest) acc
      = (scanElts elts {}).bind
          (fun kvs => scanArgs rest (acc ++ [kvs.toMetric])) := by
  conv_lhs => rw [scanArgs]
  rfl

/-- The argument loop only appends: accumulated records survive. -/
theorem scanArgs_acc_mem :
    ∀ (args : List GoExpr) (acc l : List metricInfo) (x : metricInfo),
      scanArgs args acc = .ok l → x ∈ acc → x ∈ l
  | [], acc, l, x, h, hx => by
    have he : acc = l := by
      have h' : Except.ok (ε := FatalErr) acc = .ok l := h
      injection h'
    exact he ▸ hx
  | arg :: rest, acc, l, x, h, hx => by
    cases arg
    case compositeLit elts =>
      rw [scanArgs_cons_composite] at h
      cases hscan : scanElts elts {} with
      | error e => rw [hscan] at h; simp [Except.bind] at h
      | ok kvs =>
        rw [hscan] at h
        simp only [Except.bind] at h
        exact scanArgs_acc_mem rest _ l x h (List.mem_append_left _ hx)
    all_goals exact scanArgs_acc_mem rest acc l x h hx

/-- A keyless composite-literal argument yields the all-empty record in the
scan result. -/
theorem scanArgs_yields_empty :
    ∀ (args : List GoExpr) (acc l : List metricInfo) (elts : List GoElt),
      scanArgs args acc = .ok l →
      GoExpr.compositeLit elts ∈ args →
      (∀ k v, GoElt.keyValue k v ∈ elts → k ∉ relevantKeys) →
      (⟨"", "", "", ""⟩ : metricInfo) ∈ l
  | [], _, _, _, _, hmem, _ => absurd hmem (List.not_mem_nil _)
  | arg :: rest, acc, l, elts, h, hmem, hirr => by
    rcases List.mem_cons.mp hmem with he | he
    · subst he
      rw [scanArgs_cons_composite, scanElts_irrelevant elts {} hirr] at h
      simp only [Except.bind] at h
      exact scanArgs_acc_mem rest _ l _ h
        (List.mem_append_right _ (by simp [KVPairs.toMetric]))
    · cases arg
      case compositeLit elts2 =>
        rw [scanArgs_cons_composite] at h
        cases hscan : scanElts elts2 {} with
        | error e => rw [hscan] at h; simp [Except.bind] at h
        | ok kvs =>
          rw [hscan] at h
          simp only [Except.bind] at h
          exact scanArgs_yields_empty rest _ l elts h he hirr
      all_goals exact scanArgs_yields_empty rest acc l elts h he hirr

/-- Unfolding of `handleValue` on a call expression. -/
theorem handleValue_call (acc : List metricInfo) (fn : GoExpr)
    (args : List GoExpr) :
    handleValue acc (.callExpr fn args)
      = (getFuncPackage fn).bind (fun funcPkg =>
          if funcPkg != "prometheus" && funcPkg != "opmetrics" then pure acc
          else if args.isEmpty then pure acc
          else scanArgs args acc) := by
  conv_lhs => rw [handleValue]
  rfl

/-- A two-segment join with an underscore between is never empty. -/
theorem append_underscore_ne (a b : String) : a ++ "_" ++ b ≠ "" := by
  intro h
  have h2 := congrArg String.data h
  simp [String.data_append] at h2

/-- A list joined with underscores is non-empty as soon as one of its
members is. -/
theorem goJoin_underscore_ne_empty :
    ∀ (l : List String), (∃ x ∈ l, x ≠ "") → goJoin "_" l ≠ ""
  | [], h, _ => by
    obtain ⟨x, hx, _⟩ := h
    exact absurd hx (List.not_mem_nil _)
  | [x], h, hc => by
    obtain ⟨y, hy, hne⟩ := h
    rcases List.mem_cons.mp hy with he | he
    · exact hne (he ▸ hc)
    · exact absurd he (List.not_mem_nil _)
  | x :: y :: t, _, hc => append_underscore_ne x (goJoin "_" (y :: t)) hc

/-- A record with a non-empty subsystem has a non-empty qualified name. -/
theorem qualifiedName_ne_of_subsystem (m : metricInfo)
    (h : m.subsystem ≠ "") : m.qualifiedName ≠ "" := by
  apply goJoin_underscore_ne_empty
  refine ⟨m.subsystem, ?_, h⟩
  apply List.mem_filter.mpr
  exact ⟨by simp, by simp [h]⟩

/-- A record with empty qualified name renders nothing at all: no group
heading (its subsystem must be empty) and no metric body. -/
theorem renderOne_empty_qn (prev : String) (m : metricInfo)
    (h : m.qualifiedName = "") : renderOne prev m = some ([], prev) := by
  have hss : m.subsystem = "" := by
    by_contra hne
    exact qualifiedName_ne_of_subsystem m hne h
  unfold renderOne renderBody
  rw [if_neg (by simp [hss]), if_neg (by simp [h])]

/-- C9: a composite-literal argument of an accepted constructor call whose
elements carry none of the keys Namespace/Subsystem/Name/Help contributes the
all-empty record to the scan result; and the renderer emits nothing for a
record whose qualified name is empty, so such records never appear in the
document. -/
theorem claim9_empty_records_skipped :
    (∀ (fn : GoExpr) (args : List GoExpr) (acc0 l : List metricInfo)
        (elts : List GoElt),
      (getFuncPackage fn = .ok "prometheus"
        ∨ getFuncPackage fn = .ok "opmetrics") →
      handleValue acc0 (.callExpr fn args) = .ok l →
      GoExpr.compositeLit elts ∈ args →
      (∀ k v, GoElt.keyValue k v ∈ elts → k ∉ relevantKeys) →
      (⟨"", "", "", ""⟩ : metricInfo) ∈ l)
    ∧ (∀ (m : metricInfo) (prev : String), m.qualifiedName = "" →
        renderOne prev m = some ([], prev)) := by
  refine ⟨?_, fun m prev h => renderOne_empty_qn prev m h⟩
  intro fn args acc0 l elts haccept hok hmem hirr
  rw [handleValue_call] at hok
  cases args with
  | nil => exact absurd hmem (List.not_mem_nil _)
  | cons a rest =>
    rcases haccept with hfn | hfn <;>
      rw [hfn] at hok <;>
      simp only [Except.bind, List.isEmpty_cons] at hok <;>
      [skip; skip] <;>
      first
      | exact scanArgs_yields_empty (a :: rest) acc0 l elts (by simpa using hok)
          hmem hirr

/-- C9 witness: an accepted call whose only argument is a label-list style
composite literal yields exactly the all-empty record, and the renderer
emits nothing for it. -/
theorem claim9_empty_records_witness :
    (⟨"", "", "", ""⟩ : metricInfo) ∈ ([⟨"", "", "", ""⟩] : List metricInfo)
    ∧ renderOne "" ⟨"", "", "", ""⟩ = some ([], "") :=
  ⟨(claim9_empty_records_skipped).1 (.selectorExpr "prometheus" "NewCounterVec")
      [.compositeLit [.plainElt]] [] [⟨"", "", "", ""⟩] [.plainElt]
      (Or.inl rfl) rfl (List.mem_cons_self _ _)
      (by
        intro k v hm
        rcases List.mem_cons.mp hm with hce | hce
        · cases hce
        · cases hce),
    (claim9_empty_records_skipped).2 ⟨"", "", "", ""⟩ "" rfl⟩

/-! ## Claim C10: title derivation panics on empty words -/

theorem data_eq_nil_iff (w : String) : w.data = [] ↔ w = "" := by
  cases w with
  | mk d =>
    constructor
    · intro h
      have hd : d = [] := h
      rw [hd]
    · intro h
      rw [h]

/-- `titleWord` models the `s[0:1]` panic: it fails exactly on the empty
word. -/
theorem titleWord_eq_none_iff (w : String) : titleWord w = none ↔ w = "" := by
  by_cases h : w = ""
  · subst h
    exact ⟨fun _ => rfl, fun _ => rfl⟩
  · simp only [h, iff_false]
    unfold titleWord
    by_cases hs : (w == "sdk" || w == "aws") = true
    · rw [if_pos hs]
      simp
    · rw [if_neg hs]
      cases hd : w.data with
      | nil => exact absurd ((data_eq_nil_iff w).mp hd) h
      | cons c rest => simp [hd]

theorem titleWords_none :
    ∀ (ws : List String), "" ∈ ws → titleWords ws = none
  | [], hmem => absurd hmem (List.not_mem_nil _)
  | w :: rest, hmem => by
    unfold titleWords
    rcases List.mem_cons.mp hmem with he | he
    · rw [← he]
      simp [show titleWord "" = none from rfl]
    · cases ht : titleWord w with
      | none => simp [ht]
      | some t => simp [ht, titleWords_none rest he]

theorem titleWords_some :
    ∀ (ws : List String), (∀ w ∈ ws, w ≠ "") → ∃ ts, titleWords ws = some ts
  | [], _ => ⟨[], rfl⟩
  | w :: rest, h => by
    unfold titleWords
    have hw : w ≠ "" := h w (List.mem_cons_self _ _)
    cases ht : titleWord w with
    | none => exact absurd ((titleWord_eq_none_iff w).mp ht) hw
    | some t =>
      obtain ⟨ts, hts⟩ :=
        titleWords_some rest (fun x hx => h x (List.mem_cons_of_mem _ hx))
      exact ⟨t :: ts, by simp [ht, hts]⟩

theorem titleWords_isSome (ws : List String) :
    ((titleWords ws).isSome = true ↔ ∀ w ∈ ws, w ≠ "") := by
  constructor
  · intro h w hw hc
    subst hc
    rw [titleWords_none ws hw] at h
    cases h
  · intro h
    obtain ⟨ts, hts⟩ := titleWords_some ws h
    simp [hts]

/-- C10: for a subsystem outside the alias table, title derivation succeeds
exactly when every underscore-separated word is non-empty — an empty word
(leading, trailing or doubled underscore) makes the `s[0:1]` slice panic,
modelled as `none`; concretely `_x`, `x_` and `x__y` all panic, while a
well-formed subsystem derives its title. -/
theorem claim10_title_panic :
    (∀ s : String, subsystemMap.lookup s = none →
      ((subsystemTitle s).isSome = true ↔ ∀ w ∈ goSplitUnderscore s, w ≠ ""))
    ∧ subsystemTitle "_x" = none
    ∧ subsystemTitle "x_" = none
    ∧ subsystemTitle "x__y" = none
    ∧ subsystemTitle "voluntary_disruption" = some "Voluntary Disruption" := by
  refine ⟨?_, by decide, by decide, by decide, by decide⟩
  intro s hl
  unfold subsystemTitle
  simp only [hl]
  rw [← titleWords_isSome (goSplitUnderscore s)]
  cases hm : titleWords (goSplitUnderscore s) <;> simp [hm]

/-- C10 witness: a clean subsystem derives a title; a doubled underscore
panics. -/
theorem claim10_title_panic_witness :
    ((subsystemTitle "cluster_state").isSome = true)
    ∧ subsystemTitle "_x" = none :=
  ⟨((claim10_title_panic).1 "cluster_state" (by decide)).mpr (by decide),
    (claim10_title_panic).2.1⟩

end MetricsGen
